import Mathlib

/-!
Shallow embedding of `design/codegen.go` from the goa repository: the
type-lowering functions `SourceCode`, `TypeDef`, `GoTypeName`, the
identifier sanitizer `Goify`, and the `reserved` word table.

Go strings are byte sequences, and `Goify` scans its input one byte at a
time (`rune(str[i])`), so the sanitizer is embedded over `List Nat` byte
lists; `strBytes` turns a Lean string into its UTF-8 bytes and
`runesToStr` renders the written runes back as a string, mirroring
`bytes.Buffer.WriteRune` followed by `Buffer.String`.

Functions that can reach a `panic` are embedded as `Option`-valued:
`none` is a panic, `some s` is a normal return of `s`.
-/

/-- Go `unicode.IsLetter` restricted to the values the scan can feed it:
Latin-1 bytes, plus the two case-mapped images 0x178 (Ÿ) and 0x39C (Μ)
that `goToUpper` can produce. -/
def goIsLetter (r : Nat) : Bool :=
  (0x41 ≤ r && r ≤ 0x5A) || (0x61 ≤ r && r ≤ 0x7A) ||
  r == 0xAA || r == 0xB5 || r == 0xBA ||
  (0xC0 ≤ r && r ≤ 0xD6) || (0xD8 ≤ r && r ≤ 0xF6) || (0xF8 ≤ r && r ≤ 0xFF) ||
  r == 0x178 || r == 0x39C

/-- Go `unicode.IsDigit` (category Nd) restricted to Latin-1: the ASCII
digits (the Latin-1 superscripts ¹²³ are category No, not Nd). -/
def goIsDigit (r : Nat) : Bool :=
  0x30 ≤ r && r ≤ 0x39

/-- Go `unicode.ToUpper` on the Latin-1 byte range (the only runes the
scan applies it to): a–z and à–þ (minus ÷) shift down by 32, ÿ maps to
Ÿ (0x178), µ maps to Μ (0x39C), everything else (including ß and ª,
which have no simple uppercase mapping) is unchanged. -/
def goToUpper (r : Nat) : Nat :=
  if 0x61 ≤ r ∧ r ≤ 0x7A then r - 32
  else if (0xE0 ≤ r ∧ r ≤ 0xF6) ∨ (0xF8 ≤ r ∧ r ≤ 0xFE) then r - 32
  else if r = 0xFF then 0x178
  else if r = 0xB5 then 0x39C
  else r

/-- Go `unicode.ToLower` on the Latin-1 byte range: A–Z and À–Þ
(minus ×) shift up by 32, everything else is unchanged. -/
def goToLower (r : Nat) : Nat :=
  if 0x41 ≤ r ∧ r ≤ 0x5A then r + 32
  else if (0xC0 ≤ r ∧ r ≤ 0xD6) ∨ (0xD8 ≤ r ∧ r ≤ 0xDE) then r + 32
  else r

/-- UTF-8 encoding of one character, as the list of its byte values. -/
def charUTF8 (c : Char) : List Nat :=
  let n := c.toNat
  if n < 0x80 then [n]
  else if n < 0x800 then [0xC0 + n / 64, 0x80 + n % 64]
  else if n < 0x10000 then [0xE0 + n / 4096, 0x80 + n / 64 % 64, 0x80 + n % 64]
  else [0xF0 + n / 262144, 0x80 + n / 4096 % 64, 0x80 + n / 64 % 64, 0x80 + n % 64]

/-- The byte sequence of a Lean string, i.e. the Go string it denotes. -/
def strBytes (s : String) : List Nat :=
  (s.data.map charUTF8).flatten

/-- Renders a list of rune values as a string (the decoding of the UTF-8
bytes a Go `bytes.Buffer` accumulates via `WriteRune`). -/
def runesToStr (l : List Nat) : String :=
  ⟨l.map Char.ofNat⟩

/-- The `reserved` table of `design/codegen.go`: Go keywords and
predeclared scalar type names (the map is embedded as the list of its
keys; all values are `true`). -/
def reservedList : List String :=
  ["byte", "complex128", "complex64", "float32", "float64",
   "int", "int16", "int32", "int64", "int8",
   "rune", "string", "uint16", "uint32", "uint64", "uint8",
   "break", "case", "chan", "const", "continue",
   "default", "defer", "else", "fallthrough", "for",
   "func", "go", "goto", "if", "import",
   "interface", "map", "package", "range", "return",
   "select", "struct", "switch", "type", "var"]

/-- Membership of a built byte/rune sequence in the `reserved` table
(the map lookup `reserved[res]`). -/
def reservedMem (r : List Nat) : Bool :=
  reservedList.any (fun w => strBytes w == r)

/-- The scanning loop of `Goify`: walks the input bytes carrying the
`firstWritten` and `nextUpper` flags, returning the written runes. -/
def goifyLoop (firstUpper : Bool) : List Nat → Bool → Bool → List Nat
  | [], _, _ => []
  | r :: rest, firstWritten, nextUpper =>
    if r = 0x5F then
      goifyLoop firstUpper rest firstWritten true
    else if goIsLetter r || goIsDigit r then
      if !firstWritten then
        (if firstUpper then goToUpper r else goToLower r) ::
          goifyLoop firstUpper rest true false
      else if nextUpper then
        goToUpper r :: goifyLoop firstUpper rest true false
      else
        r :: goifyLoop firstUpper rest firstWritten nextUpper
    else
      goifyLoop firstUpper rest firstWritten nextUpper

/-- The function `Goify` of `design/codegen.go` over the bytes of the
input: scan, then return the placeholder `"_v"` if nothing was written,
then append `"_"` if the result is a reserved word. -/
def Goify (str : List Nat) (firstUpper : Bool) : List Nat :=
  let res := goifyLoop firstUpper str false false
  if res = [] then [0x5F, 0x76]
  else if reservedMem res then res ++ [0x5F]
  else res

/-- The sanitizer `Goify` as a function on Lean strings. -/
def GoifyStr (s : String) (firstUpper : Bool) : String :=
  runesToStr (Goify (strBytes s) firstUpper)

/-- Modelled from the spec: the `Kind` enumeration of primitive types is
defined outside `design/codegen.go`; it is an integral code with the
four recognized values Boolean, Integer, Number, String, embedded as
`Nat` with arbitrary distinct values so that unrecognized codes exist. -/
def BooleanKind : Nat := 1

/-- Modelled from the spec: the Integer kind code. -/
def IntegerKind : Nat := 2

/-- Modelled from the spec: the Number kind code. -/
def NumberKind : Nat := 3

/-- Modelled from the spec: the String kind code. -/
def StringKind : Nat := 4

mutual
/-- Modelled from the spec: the closed `DataType` variant dispatched on
by `design/codegen.go` — `Primitive` (a kind code), `*Array` (element
attribute), `Object` (map from field name to attribute, embedded as an
association list whose key set is the key set of the map), and the two
named forms `*UserTypeDefinition` and `*MediaTypeDefinition` (a name plus the
underlying attribute). `Unknown` stands for any value of the `DataType`
interface outside the recognized set, which the `default` switch cases
of the source handle. -/
inductive DataType where
  | Primitive (kind : Nat)
  | Array (elemType : AttributeDefinition)
  | Object (fields : List (String × AttributeDefinition))
  | UserType (name : String) (attr : AttributeDefinition)
  | MediaType (name : String) (attr : AttributeDefinition)
  | Unknown

/-- Modelled from the spec: an `AttributeDefinition` wraps a `DataType`
and exposes the required-field predicate `IsRequired`. The `Definition()`
of a `DataStructure` is the attribute itself. -/
inductive AttributeDefinition where
  | mk (type : DataType) (isRequired : String → Bool)
end

/-- Go `sort.Strings`: ascending lexicographic sort of the key list. -/
def sortStrings (l : List String) : List String :=
  List.insertionSort (· ≤ ·) l

/-- Association-list lookup, the embedding of a Go map access. -/
def lookupA {α : Type} : List (String × α) → String → Option α
  | [], _ => none
  | (k, v) :: rest, n => if k = n then some v else lookupA rest n

/-- The field-emission loop of the `Object` case of `SourceCode`: for
each name in sorted order, fetch its (already lowered) type text, build
the tab-indented field line with its backquoted json tag, and
concatenate. A missing entry is a nil-map access whose use would panic,
and a `none` entry is a propagated panic from lowering the field. -/
def renderFields (req : String → Bool) (tbl : List (String × Option String)) :
    List String → Option String
  | [] => some ""
  | n :: rest => do
    let td ← (lookupA tbl n).getD none
    let rs ← renderFields req tbl rest
    some ("\t" ++ GoifyStr n true ++ " " ++ td ++ " " ++
      ("`json:\"" ++ n ++ (if req n then "" else ",omitempty") ++ "\"`") ++
      "\n" ++ rs)

mutual
/-- The function `GoTypeName` of `design/codegen.go`: the Go type name
for a data type; `none` embeds the `panic` of the two `default` cases. -/
def GoTypeName : DataType → Option String
  | .Primitive k =>
      if k = BooleanKind then some "bool"
      else if k = IntegerKind then some "int"
      else if k = NumberKind then some "float64"
      else if k = StringKind then some "string"
      else none
  | .Array (.mk t _) => (GoTypeName t).map (fun s => "[]" ++ s)
  | .Object _ => some "map[string]interface\x7b\x7d"
  | .UserType n _ => some (GoifyStr n true)
  | .MediaType n _ => some (GoifyStr n true)
  | .Unknown => none

/-- The function `TypeDef` of `design/codegen.go`: the Go type
definition for an attribute. Its type switch has no `default` case, so
an unrecognized variant leaves `typedef` at the zero value `""`. -/
def TypeDef : AttributeDefinition → Option String
  | .mk (.Primitive k) _ => GoTypeName (.Primitive k)
  | .mk (.Array elem) _ => (TypeDef elem).map (fun s => "[]" ++ s)
  | .mk (.Object fields) req => SourceCode (.mk (.Object fields) req)
  | .mk (.UserType n u) _ => (GoTypeName (.UserType n u)).map (fun s => "*" ++ s)
  | .mk (.MediaType n u) _ => (GoTypeName (.MediaType n u)).map (fun s => "*" ++ s)
  | .mk .Unknown _ => some ""

/-- The function `SourceCode` of `design/codegen.go`: the Go code
defining a type matching the data structure (`ds.Definition()` is the
attribute). The `Object` case sorts the field names and emits one line
per field; the `default` case panics (`none`). -/
def SourceCode : AttributeDefinition → Option String
  | .mk (.Primitive k) _ => GoTypeName (.Primitive k)
  | .mk (.Array elem) _ => (SourceCode elem).map (fun s => "[]" ++ s)
  | .mk (.Object fields) req =>
      (renderFields req (typeDefTable fields)
          (sortStrings (fields.map Prod.fst))).map
        (fun body => "struct \x7b\n" ++ body ++ "\x7d")
  | .mk (.UserType _ _) _ => none
  | .mk (.MediaType _ _) _ => none
  | .mk .Unknown _ => none

/-- The per-field lowering `TypeDef(actual[name])` of the `SourceCode`
loop, tabulated over the entries of the object. -/
def typeDefTable : List (String × AttributeDefinition) → List (String × Option String)
  | [] => []
  | (n, a) :: rest => (n, TypeDef a) :: typeDefTable rest
end

/-- C3: `GoTypeName` maps the Boolean, Integer, Number and String
primitive kinds to exactly `"bool"`, `"int"`, `"float64"` and
`"string"`, and panics (`none`) on every kind outside that set. -/
theorem goTypeName_primitive_mapping :
    GoTypeName (.Primitive BooleanKind) = some "bool" ∧
    GoTypeName (.Primitive IntegerKind) = some "int" ∧
    GoTypeName (.Primitive NumberKind) = some "float64" ∧
    GoTypeName (.Primitive StringKind) = some "string" ∧
    ∀ k : Nat, k ≠ BooleanKind → k ≠ IntegerKind → k ≠ NumberKind → k ≠ StringKind →
      GoTypeName (.Primitive k) = none := by
  refine ⟨by simp [GoTypeName], by rw [GoTypeName]; decide,
    by rw [GoTypeName]; decide, by rw [GoTypeName]; decide, ?_⟩
  intro k h1 h2 h3 h4
  simp [GoTypeName, h1, h2, h3, h4]

/-- C3 witness: the unused kind code 0 makes `GoTypeName` panic. -/
theorem goTypeName_primitive_mapping_witness :
    GoTypeName (.Primitive 0) = none :=
  goTypeName_primitive_mapping.2.2.2.2 0 (by decide) (by decide) (by decide) (by decide)

/-- C7: on a named type (user-defined or media-derived), `TypeDef`
emits a pointer reference `"*"` followed by the sanitized exported
identifier of the name of the type, for every underlying attribute `u`,
the underlying structure is never inlined. -/
theorem typeDef_named_reference :
    ∀ (n : String) (u : AttributeDefinition) (req : String → Bool),
      TypeDef (.mk (.UserType n u) req) = some ("*" ++ GoifyStr n true) ∧
      TypeDef (.mk (.MediaType n u) req) = some ("*" ++ GoifyStr n true) := by
  intro n u req
  constructor <;> simp [TypeDef, GoTypeName]

/-- C8 counterexample: on an unrecognized `DataType` variant, `TypeDef`
does not panic; its type switch has no default case, so it returns the
zero value `""`. -/
theorem typeDef_unknown_returns_value :
    TypeDef (.mk .Unknown (fun _ => false)) = some "" ∧
    SourceCode (.mk .Unknown (fun _ => false)) = none :=
  ⟨by simp [TypeDef], by simp [SourceCode]⟩

/-- C8 amended: on an unrecognized `DataType` variant, `SourceCode` and
`GoTypeName` panic like they do on an unknown primitive kind, while
`TypeDef` instead returns the empty string. -/
theorem lowering_unknown_variant :
    ∀ req : String → Bool,
      SourceCode (.mk .Unknown req) = none ∧
      GoTypeName .Unknown = none ∧
      TypeDef (.mk .Unknown req) = some "" := by
  intro req
  exact ⟨by simp [SourceCode], by simp [GoTypeName], by simp [TypeDef]⟩

/-- C10: `SourceCode` panics (`none`) on a data structure whose type is
a named type, and the bare name `GoTypeName` gives an anonymous
`Object` is the fixed token `map[string]interface{}`. -/
theorem sourceCode_accepts_only_structural :
    ∀ (req : String → Bool) (n : String) (u : AttributeDefinition)
      (fields : List (String × AttributeDefinition)),
      SourceCode (.mk (.UserType n u) req) = none ∧
      SourceCode (.mk (.MediaType n u) req) = none ∧
      GoTypeName (.Object fields) = some "map[string]interface\x7b\x7d" := by
  intro req n u fields
  exact ⟨by simp [SourceCode], by simp [SourceCode], by simp [GoTypeName]⟩

/-- Every reserved word is changed by `Goify`, checked entry by entry. -/
theorem reserved_all_disambiguated :
    (reservedList.all fun w =>
      !(GoifyStr w true == w) && !(GoifyStr w false == w)) = true := by
  decide

/-- C2: for every word of the reserved table and either flag, `Goify`
never returns the word itself. -/
theorem goify_reserved_disambiguation :
    ∀ w ∈ reservedList, ∀ b : Bool, (GoifyStr w b == w) = false := by
  intro w hw b
  have h := List.all_eq_true.mp reserved_all_disambiguated w hw
  cases b <;> simp_all

/-- C2 witness: the keyword `break` is disambiguated. -/
theorem goify_reserved_disambiguation_witness :
    (GoifyStr "break" true == "break") = false :=
  goify_reserved_disambiguation "break" (by decide) true

/-- The first written rune is the case-mapped image of the first
surviving (letter or digit) byte of the input. -/
theorem goifyLoop_head? (b : Bool) (bytes : List Nat) :
    ∀ nu : Bool, (goifyLoop b bytes false nu).head? =
      ((bytes.find? fun r => goIsLetter r || goIsDigit r).map
        fun r => if b then goToUpper r else goToLower r) := by
  induction bytes with
  | nil => intro nu; simp [goifyLoop]
  | cons r rest ih =>
    intro nu
    by_cases h5f : r = 0x5F
    · subst h5f
      have hld : (goIsLetter 0x5F || goIsDigit 0x5F) = false := by decide
      simp [goifyLoop, List.find?_cons, hld, ih]
    · by_cases hld : (goIsLetter r || goIsDigit r) = true
      · simp [goifyLoop, h5f, hld, List.find?_cons]
      · simp only [Bool.not_eq_true] at hld
        simp [goifyLoop, h5f, hld, List.find?_cons, ih]

/-- Every rune the scan writes is a kept letter/digit byte or the
case-mapped image of one. -/
theorem goifyLoop_mem (b : Bool) (bytes : List Nat) :
    ∀ (fw nu : Bool) (c : Nat), c ∈ goifyLoop b bytes fw nu →
      ∃ r, (goIsLetter r || goIsDigit r) = true ∧
        (c = r ∨ c = goToUpper r ∨ c = goToLower r) := by
  induction bytes with
  | nil => intro fw nu c hc; simp [goifyLoop] at hc
  | cons r rest ih =>
    intro fw nu c hc
    rw [goifyLoop] at hc
    split at hc
    · exact ih _ _ _ hc
    · split at hc
      · split at hc
        · rcases List.mem_cons.mp hc with h | h
          · refine ⟨r, by assumption, ?_⟩
            by_cases hb : b = true
            · rw [if_pos hb] at h; exact Or.inr (Or.inl h)
            · rw [if_neg hb] at h; exact Or.inr (Or.inr h)
          · exact ih _ _ _ h
        · split at hc
          · rcases List.mem_cons.mp hc with h | h
            · exact ⟨r, by assumption, Or.inr (Or.inl h)⟩
            · exact ih _ _ _ h
          · rcases List.mem_cons.mp hc with h | h
            · exact ⟨r, by assumption, Or.inl h⟩
            · exact ih _ _ _ h
      · exact ih _ _ _ hc

/-- Letters and digits are closed under the Go case maps, and none of
them (nor a case image) is the underscore 0x5F. -/
theorem goCase_closure (r : Nat) (h : (goIsLetter r || goIsDigit r) = true) :
    (goIsLetter (goToUpper r) || goIsDigit (goToUpper r)) = true ∧
    (goIsLetter (goToLower r) || goIsDigit (goToLower r)) = true ∧
    goToUpper r ≠ 0x5F ∧ goToLower r ≠ 0x5F ∧ r ≠ 0x5F := by
  simp only [goIsLetter, goIsDigit, Bool.or_eq_true, Bool.and_eq_true,
    beq_iff_eq, decide_eq_true_eq] at h ⊢
  unfold goToUpper goToLower
  split_ifs <;> omega

/-- Every rune the scan writes is a letter or a digit. -/
theorem goifyLoop_chars (b : Bool) (bytes : List Nat) (fw nu : Bool) (c : Nat)
    (hc : c ∈ goifyLoop b bytes fw nu) : (goIsLetter c || goIsDigit c) = true := by
  obtain ⟨r, hr, hcase⟩ := goifyLoop_mem b bytes fw nu c hc
  obtain ⟨hu, hl, -, -, -⟩ := goCase_closure r hr
  rcases hcase with h | h | h <;> subst h <;> assumption

/-- The scan never writes an underscore. -/
theorem goifyLoop_no_underscore (b : Bool) (bytes : List Nat) (fw nu : Bool) :
    ((goifyLoop b bytes fw nu).contains 0x5F) = false := by
  cases hc : (goifyLoop b bytes fw nu).contains 0x5F
  · rfl
  · exfalso
    have hm : (0x5F : Nat) ∈ goifyLoop b bytes fw nu := by
      simpa [List.contains_iff_exists_mem_beq] using hc
    obtain ⟨r, hr, hcase⟩ := goifyLoop_mem b bytes fw nu _ hm
    obtain ⟨-, -, hu, hl, hr5⟩ := goCase_closure r hr
    rcases hcase with h | h | h
    · exact hr5 h.symm
    · exact hu h.symm
    · exact hl h.symm

/-- C1 (amended): `Goify` always returns a non-empty result whose runes
are letters, digits, or the underscore of the placeholder/suffix; when
a letter or digit survives filtering, the first rune of the result is
its case-mapped image under the exported flag, and when nothing
survives the result is the fixed placeholder `"_v"`. -/
theorem goify_identifier_totality (s : String) (b : Bool) :
    0 < (Goify (strBytes s) b).length ∧
    ((Goify (strBytes s) b).all fun c => goIsLetter c || goIsDigit c || c == 0x5F) = true ∧
    (∀ r, ((strBytes s).find? fun x => goIsLetter x || goIsDigit x) = some r →
      (Goify (strBytes s) b).head? = some (if b then goToUpper r else goToLower r)) ∧
    (((strBytes s).find? fun x => goIsLetter x || goIsDigit x) = none →
      Goify (strBytes s) b = [0x5F, 0x76]) := by
  have hG : Goify (strBytes s) b =
      (if goifyLoop b (strBytes s) false false = [] then [0x5F, 0x76]
       else if reservedMem (goifyLoop b (strBytes s) false false) then
         goifyLoop b (strBytes s) false false ++ [0x5F]
       else goifyLoop b (strBytes s) false false) := rfl
  rw [hG]
  refine ⟨?_, ?_, ?_, ?_⟩
  · split
    · decide
    · split
      · simp
      · rename_i hres hres2
        exact List.length_pos.mpr hres
  · rw [List.all_eq_true]
    intro c hc
    split at hc
    · simp only [List.mem_cons, List.not_mem_nil, or_false] at hc
      rcases hc with hc | hc <;> subst hc <;> decide
    · have hmem : c ∈ goifyLoop b (strBytes s) false false ∨ c = 0x5F := by
        split at hc
        · rcases List.mem_append.mp hc with h | h
          · exact Or.inl h
          · simp at h; exact Or.inr h
        · exact Or.inl hc
      rcases hmem with hmem | hmem
      · have hch := goifyLoop_chars b (strBytes s) false false c hmem
        simp only [Bool.or_eq_true] at hch
        rcases hch with h | h <;> simp [h]
      · simp [hmem]
  · intro r hr
    have hh := goifyLoop_head? b (strBytes s) false
    rw [hr] at hh
    have hne : goifyLoop b (strBytes s) false false ≠ [] := by
      intro h0
      rw [h0] at hh
      simp at hh
    split
    · rename_i h0; exact absurd h0 hne
    · split
      · rw [List.head?_append_of_ne_nil _ hne]
        simpa using hh
      · simpa using hh
  · intro hr
    have hh := goifyLoop_head? b (strBytes s) false
    rw [hr] at hh
    have h0 : goifyLoop b (strBytes s) false false = [] := by
      cases hq : goifyLoop b (strBytes s) false false with
      | nil => rfl
      | cons x xs => rw [hq] at hh; simp at hh
    rw [if_pos h0]

/-- C1 witness: on the input `user_id` with the exported flag set, the
first survivor is `u` (0x75) and the first rune of the result is its
uppercase image. -/
theorem goify_identifier_totality_witness :
    (Goify (strBytes "user_id") true).head? =
      some (if true then goToUpper 0x75 else goToLower 0x75) :=
  (goify_identifier_totality "user_id" true).2.2.1 0x75 (by decide)

/-- C1 counterexample: the claim as stated fails at two explicit
inputs. On the empty input the result is the placeholder `"_v"`, which
contains a rune that is neither a letter nor a digit and whose first
character is not uppercase; and on the input `"1"` with the exported
flag set, the surviving digit is kept as the first character, which is
not an uppercase letter. -/
theorem goify_totality_counterexample :
    GoifyStr "" true = "_v" ∧
    ((Goify (strBytes "") true).all fun c => goIsLetter c || goIsDigit c) = false ∧
    (((GoifyStr "" true).data.headD 'A').isUpper) = false ∧
    GoifyStr "1" true = "1" ∧
    (((GoifyStr "1" true).data.headD 'A').isUpper) = false := by
  exact ⟨by decide, by decide, by decide, by decide, by decide⟩

/-- C6: an underscore is never emitted — the scan consumes it and sets
the capitalize-next marker — and on `user_id` the sanitizer produces
`UserId` (exported) and `userId` (unexported). -/
theorem goify_underscore_consumed :
    (∀ (b : Bool) (bytes : List Nat) (fw nu : Bool),
      goifyLoop b (0x5F :: bytes) fw nu = goifyLoop b bytes fw true) ∧
    (∀ (b : Bool) (bytes : List Nat) (fw nu : Bool),
      ((goifyLoop b bytes fw nu).contains 0x5F) = false) ∧
    GoifyStr "user_id" true = "UserId" ∧ GoifyStr "user_id" false = "userId" := by
  refine ⟨?_, ?_, by decide, by decide⟩
  · intro b bytes fw nu
    rw [goifyLoop]
    rw [if_pos rfl]
  · exact goifyLoop_no_underscore

/-- The uppercase map never produces an ASCII lowercase letter. -/
theorem goToUpper_not_lower_ascii (r : Nat) :
    goToUpper r < 0x61 ∨ 0x7A < goToUpper r := by
  unfold goToUpper
  split_ifs <;> omega

/-- Every reserved word starts with an ASCII lowercase letter. -/
theorem reserved_heads_lower :
    (reservedList.all fun w =>
      match strBytes w with
      | h :: _ => decide (0x61 ≤ h ∧ h ≤ 0x7A)
      | [] => false) = true := by
  decide

/-- A sequence whose first element is not ASCII lowercase is not a
reserved word. -/
theorem reservedMem_cons_not_lower (c : Nat) (rest : List Nat)
    (hc : c < 0x61 ∨ 0x7A < c) : reservedMem (c :: rest) = false := by
  cases h : reservedMem (c :: rest)
  · rfl
  · exfalso
    obtain ⟨w, hw, he⟩ := List.any_eq_true.mp h
    have hhead := List.all_eq_true.mp reserved_heads_lower w hw
    rw [beq_iff_eq] at he
    rw [he] at hhead
    simp only [decide_eq_true_eq] at hhead
    omega

/-- C9: with the exported flag set the result of the scan never matches a
reserved word — its first rune is the uppercase image of a byte, while
every table entry starts lowercase — so `Goify(s, true)` never carries
the `"_"` suffix and is itself never reserved. -/
theorem goify_exported_not_reserved (s : String) :
    reservedMem (goifyLoop true (strBytes s) false false) = false ∧
    reservedMem (Goify (strBytes s) true) = false ∧
    Goify (strBytes s) true =
      (if goifyLoop true (strBytes s) false false = [] then [0x5F, 0x76]
       else goifyLoop true (strBytes s) false false) := by
  have hcore : reservedMem (goifyLoop true (strBytes s) false false) = false := by
    cases hq : goifyLoop true (strBytes s) false false with
    | nil => decide
    | cons c rest =>
      have hh := goifyLoop_head? true (strBytes s) false
      rw [hq] at hh
      simp only [List.head?_cons] at hh
      cases hf : (strBytes s).find? fun x => goIsLetter x || goIsDigit x with
      | none => rw [hf] at hh; simp at hh
      | some r =>
        rw [hf] at hh
        simp only [Option.map_some', if_true, Option.some.injEq] at hh
        subst hh
        exact reservedMem_cons_not_lower _ _ (goToUpper_not_lower_ascii r)
  have hG : Goify (strBytes s) true =
      (if goifyLoop true (strBytes s) false false = [] then [0x5F, 0x76]
       else if reservedMem (goifyLoop true (strBytes s) false false) then
         goifyLoop true (strBytes s) false false ++ [0x5F]
       else goifyLoop true (strBytes s) false false) := rfl
  refine ⟨hcore, ?_, ?_⟩
  · rw [hG]
    split
    · decide
    · rw [hcore]
      simp [hcore]
  · rw [hG, hcore]
    split <;> simp

/-- Map lookup is unchanged by permuting the entries of a map with
distinct keys. -/
theorem lookupA_perm {α : Type} {l1 l2 : List (String × α)} (p : List.Perm l1 l2)
    (nd : (l1.map Prod.fst).Nodup) (n : String) : lookupA l1 n = lookupA l2 n := by
  induction p with
  | nil => rfl
  | cons x p ih =>
    obtain ⟨k, v⟩ := x
    simp only [List.map_cons, List.nodup_cons] at nd
    simp only [lookupA]
    split
    · rfl
    · exact ih nd.2
  | swap x y l =>
    obtain ⟨kx, vx⟩ := x
    obtain ⟨ky, vy⟩ := y
    simp only [List.map_cons, List.nodup_cons, List.mem_cons] at nd
    have hne : ky ≠ kx := fun h => nd.1 (Or.inl h)
    simp only [lookupA]
    by_cases hy : ky = n
    · have hx : ¬kx = n := fun h => hne (hy.trans h.symm)
      simp [hy, hx]
    · by_cases hx : kx = n
      · simp [hy, hx]
      · simp [hy, hx]
  | trans p q ih1 ih2 =>
    have nd2 := (p.map Prod.fst).nodup_iff.mp nd
    exact (ih1 nd).trans (ih2 nd2)

/-- The table `typeDefTable` is the entrywise lowering of the field map. -/
theorem typeDefTable_eq (l : List (String × AttributeDefinition)) :
    typeDefTable l = l.map fun p => (p.1, TypeDef p.2) := by
  induction l with
  | nil => simp [typeDefTable]
  | cons p rest ih => obtain ⟨n, a⟩ := p; simp [typeDefTable, ih]

/-- Field emission only consults the table through lookup, so tables
with identical lookups render identically. -/
theorem renderFields_congr (req : String → Bool)
    (tbl1 tbl2 : List (String × Option String))
    (h : ∀ n, lookupA tbl1 n = lookupA tbl2 n) :
    ∀ names, renderFields req tbl1 names = renderFields req tbl2 names := by
  intro names
  induction names with
  | nil => rfl
  | cons n rest ih => simp only [renderFields]; rw [h n, ih]

/-- Sorting is a canonical form: permutation-equal key lists sort to the
same list. -/
theorem sortStrings_perm_eq {l1 l2 : List String} (h : List.Perm l1 l2) :
    sortStrings l1 = sortStrings l2 :=
  List.eq_of_perm_of_sorted
    ((List.perm_insertionSort _ l1).trans (h.trans (List.perm_insertionSort _ l2).symm))
    (List.sorted_insertionSort _ l1) (List.sorted_insertionSort _ l2)

/-- C4: for an `Object` with distinct field names, permuting the
internal order of the field map never changes the emitted text, and
the emission order of the fields is the ascending lexicographic sort
of their names. -/
theorem sourceCode_field_order (f1 f2 : List (String × AttributeDefinition))
    (req : String → Bool) (hp : List.Perm f1 f2)
    (hnd : (f1.map Prod.fst).Nodup) :
    SourceCode (.mk (.Object f1) req) = SourceCode (.mk (.Object f2) req) ∧
    List.Sorted (· ≤ ·) (sortStrings (f1.map Prod.fst)) := by
  constructor
  · have hkeys : sortStrings (f1.map Prod.fst) = sortStrings (f2.map Prod.fst) :=
      sortStrings_perm_eq (hp.map Prod.fst)
    have htbl : ∀ n, lookupA (typeDefTable f1) n = lookupA (typeDefTable f2) n := by
      intro n
      have hperm : List.Perm (typeDefTable f1) (typeDefTable f2) := by
        rw [typeDefTable_eq, typeDefTable_eq]
        exact hp.map _
      have hnd2 : ((typeDefTable f1).map Prod.fst).Nodup := by
        rw [typeDefTable_eq]
        simpa [List.map_map, Function.comp] using hnd
      exact lookupA_perm hperm hnd2 n
    simp only [SourceCode]
    rw [hkeys, renderFields_congr req _ _ htbl]
  · exact List.sorted_insertionSort _ _

/-- C4 witness: swapping two concrete fields leaves the emitted struct
text unchanged. -/
theorem sourceCode_field_order_witness :
    SourceCode (.mk (.Object
      [("b", .mk (.Primitive IntegerKind) (fun _ => true)),
       ("a", .mk (.Primitive StringKind) (fun _ => true))]) (fun _ => true)) =
    SourceCode (.mk (.Object
      [("a", .mk (.Primitive StringKind) (fun _ => true)),
       ("b", .mk (.Primitive IntegerKind) (fun _ => true))]) (fun _ => true)) :=
  (sourceCode_field_order _ _ _ (List.Perm.swap _ _ _) (by decide)).1

/-- Each name in the emission list contributes a json tag, embedding
the original name and the omit marker exactly when not required, that
occurs inside the rendered field block. -/
theorem renderFields_tag_infix (req : String → Bool)
    (tbl : List (String × Option String)) :
    ∀ (names : List String) (out : String), renderFields req tbl names = some out →
      ∀ n ∈ names,
        ("`json:\"" ++ n ++ (if req n then "" else ",omitempty") ++ "\"`").data <:+:
          out.data := by
  intro names
  induction names with
  | nil => intro out h n hn; simp at hn
  | cons m rest ih =>
    intro out h n hn
    rw [renderFields] at h
    cases htd : (lookupA tbl m).getD none with
    | none => rw [htd] at h; simp at h
    | some td =>
      rw [htd] at h
      cases hrs : renderFields req tbl rest with
      | none => rw [hrs] at h; simp at h
      | some rs =>
        rw [hrs] at h
        simp only [Option.bind_eq_bind, Option.some_bind, Option.some.injEq] at h
        rcases List.mem_cons.mp hn with hnm | hnm
        · subst hnm
          refine ⟨("\t" ++ GoifyStr n true ++ " " ++ td ++ " ").data, ("\n" ++ rs).data, ?_⟩
          rw [← h]
          simp [String.data_append, List.append_assoc]
        · have htail := ih rs hrs n hnm
          have hsuf : rs.data <:+: out.data := by
            refine ⟨("\t" ++ GoifyStr m true ++ " " ++ td ++ " " ++
              ("`json:\"" ++ m ++ (if req m then "" else ",omitempty") ++ "\"`") ++
              "\n").data, [], ?_⟩
            rw [← h]
            simp [String.data_append, List.append_assoc]
          exact htail.trans hsuf

/-- C5: every field of an emitted `Object` carries a json tag built
from the original, unsanitized field name, with the `,omitempty`
marker exactly when the field is not required. -/
theorem sourceCode_json_tag (fields : List (String × AttributeDefinition))
    (req : String → Bool) (n : String) (hn : n ∈ fields.map Prod.fst)
    (out : String) (h : SourceCode (.mk (.Object fields) req) = some out) :
    ("`json:\"" ++ n ++ (if req n then "" else ",omitempty") ++ "\"`").data <:+:
      out.data := by
  simp only [SourceCode] at h
  cases hrf : renderFields req (typeDefTable fields)
      (sortStrings (fields.map Prod.fst)) with
  | none => rw [hrf] at h; simp at h
  | some body =>
    rw [hrf] at h
    simp only [Option.map_some', Option.some.injEq] at h
    have hmem : n ∈ sortStrings (fields.map Prod.fst) := by
      rw [sortStrings]
      exact (List.mem_insertionSort _).mpr hn
    have htag := renderFields_tag_infix req (typeDefTable fields) _ body hrf n hmem
    have hbody : body.data <:+: out.data := by
      refine ⟨("struct \x7b\n" : String).data, ("\x7d" : String).data, ?_⟩
      rw [← h]
      simp [String.data_append, List.append_assoc]
    exact htag.trans hbody

/-- C5 witness: a concrete one-field required object emits the tag
without the omit marker. -/
theorem sourceCode_json_tag_witness :
    ("`json:\"" ++ "id" ++ (if true then "" else ",omitempty") ++ "\"`").data <:+:
      ("struct \x7b\n\tId int `json:\"id\"`\n\x7d" : String).data :=
  sourceCode_json_tag [("id", .mk (.Primitive IntegerKind) (fun _ => true))]
    (fun _ => true) "id" (by decide) "struct \x7b\n\tId int `json:\"id\"`\n\x7d"
    (by rw [SourceCode, typeDefTable, typeDefTable, TypeDef, GoTypeName]
        simp [sortStrings, List.insertionSort, renderFields, lookupA]
        decide)
